import Mathlib

/-!
# Verification of the llmchess turn-orchestration spec

Shallow embedding of the llmchess repository's data model and operations,
together with proofs of the spec's testable properties.

Sources embedded directly from the repository:
* `escapeHtml` (src/inspect/webui/app.js, src/app/webui/app.js)
* `toggleSelect` and the `handleSubmit` payload (ui experiments page)
* `applyMoveToBoard` / `deriveSnapshot` (live-board component)

The turn-orchestration core (Referee, GameRunner, Batch Orchestrator,
Move Normalizer, Transport) is not part of the checked-in sources; those
components are modelled from the specification text, with the external
chess rules engine kept abstract, as the spec prescribes.
-/

set_option linter.unusedVariables false

namespace LlmChess

/-! ## HTML escaping (src/inspect/webui/app.js line 211, src/app/webui/app.js line 205)

JS source: `String(s).replace(/[&<>"]/g, c => ({'&':'&amp;','<':'&lt;','>':'&gt;','"':'&quot;'}[c]))`.
The regex is a global single-character class, so the replacement acts
independently on each character of the input. -/

/-- Per-character replacement table of `escapeHtml`. -/
def escapeChar (c : Char) : String :=
  if c = '&' then "&amp;"
  else if c = '<' then "&lt;"
  else if c = '>' then "&gt;"
  else if c = '"' then "&quot;"
  else String.mk [c]

/-- Function `escapeHtml` from both web UIs: replace every `&`, `<`, `>`, `"` by its
HTML entity, leaving all other characters unchanged. -/
def escapeHtml (s : String) : String :=
  String.mk (s.data.flatMap (fun c => (escapeChar c).data))

/-! ## Live-boards selection (src/unnamed/part_002, `LiveBoardsPanel.toggleSelect`)

JS source:
```
const toggleSelect = (id) => {
  setSelectedIds((prev) => {
    if (prev.includes(id)) return prev.filter((x) => x !== id);
    const next = [...prev, id];
    if (next.length > count) next.splice(0, next.length - count);
    return next;
  });
};
```
`splice(0, k)` removes the first `k` elements, i.e. `List.drop k`. -/

/-- Function `toggleSelect` of `LiveBoardsPanel`: toggle a game id in the selected
list, evicting the oldest ids when the selection exceeds `count`. -/
def toggleSelect (count : Nat) (prev : List String) (id : String) : List String :=
  if id ∈ prev then prev.filter (fun x => x ≠ id)
  else
    let next := prev ++ [id]
    if count < next.length then next.drop (next.length - count) else next

/-! ## Experiment creation payload (src/unnamed/part_002, `handleSubmit`)

The experiment-lab page keeps a form state with defaults
`{ name: "gpt4o_vs_claude", total: 20, aAsWhite: 10, promptMode: "fen+plaintext",
   illegalLimit: 3 }` and on submit builds the payload
```
{ name, players: {a: {model}, b: {model}},
  games: { total, a_as_white, b_as_white: Math.max(total - aAsWhite, 0) },
  prompt: { mode, instruction_template_id: "san_only_default" },
  illegal_move_limit: form.illegalLimit }
```
The illegal-move-limit input has `min={1}` and default `3`. -/

/-- Form state of the experiment-lab `ExperimentsPage`. -/
structure ExperimentForm where
  name : String
  playerA : String
  playerB : String
  total : Int
  aAsWhite : Int
  promptMode : String
  illegalLimit : Nat
deriving DecidableEq, Repr

/-- The default form state of the experiment-lab page (`useState` initializer). -/
def defaultExperimentForm : ExperimentForm :=
  { name := "gpt4o_vs_claude"
    playerA := "openai/gpt-4o"
    playerB := "anthropic/claude-4.5"
    total := 20
    aAsWhite := 10
    promptMode := "fen+plaintext"
    illegalLimit := 3 }

/-- The POST body built by `handleSubmit` (fields flattened). -/
structure ExperimentPayload where
  name : String
  player_a_model : String
  player_b_model : String
  games_total : Int
  a_as_white : Int
  b_as_white : Int
  prompt_mode : String
  instruction_template_id : String
  illegal_move_limit : Nat
deriving DecidableEq, Repr

/-- Payload construction performed inside `handleSubmit` of the
experiment-lab page (src/unnamed/part_002 lines 516-526). -/
def handleSubmitPayload (f : ExperimentForm) : ExperimentPayload :=
  { name := f.name
    player_a_model := f.playerA
    player_b_model := f.playerB
    games_total := f.total
    a_as_white := f.aAsWhite
    b_as_white := max (f.total - f.aAsWhite) 0
    prompt_mode := f.promptMode
    instruction_template_id := "san_only_default"
    illegal_move_limit := f.illegalLimit }

/-- Type `HumanGameCreateRequest` (src/inspect/webui/app.js types, lines 423-431):
the human-vs-model game creation API carries a required, configurable
`illegal_move_limit` field. -/
structure HumanGameCreateRequest where
  model : String
  prompt_mode : String
  instruction_template_id : Option String
  illegal_move_limit : Nat
  human_plays : String
deriving DecidableEq, Repr

/-! ## Live board snapshot (src/unnamed/part_006, `LiveBoard`)

The chess.js engine consumed by the component is external; it is kept
abstract as `ChessApi`. A failed `board.move` call throws without mutating
the board, which the embedding models as `Option` results that leave the
state unchanged on `none`. -/

/-- chess.js move result fields used by the component (`res.from`, `res.to`). -/
structure BoardMove where
  fromSq : String
  toSq : String
deriving DecidableEq, Repr

/-- Type `MoveEntry` of the live-board component. Optional string fields model
JS fields that may be `undefined`; JS truthiness of a present-but-empty
string is checked explicitly where the source relies on it. -/
structure MoveEntry where
  uci : Option String
  san : Option String
  event : Option String
  reason : Option String
  result : Option String
  fen_after : Option String
deriving DecidableEq, Repr

/-- Abstract interface of the external chess.js `Chess` class as used by
the live-board component: fallible construction from a FEN, fallible
UCI-shaped and SAN moves (state unchanged on failure), and FEN rendering. -/
structure ChessApi (S : Type) where
  init : String → Option S
  moveUci : S → String → String → Option String → Option (BoardMove × S)
  moveSan : S → String → Option (BoardMove × S)
  fen : S → String

/-- Function `applyMoveToBoard(board, move)` of the live-board component: returns the
highlight move (or `none`) together with the possibly-advanced board. -/
def applyMoveToBoard {S : Type} (api : ChessApi S) (s : S) (move : MoveEntry) :
    Option BoardMove × S :=
  if move.event = some "termination" then (none, s)
  else
    let attempt1 : Option (BoardMove × S) :=
      match move.uci with
      | some u =>
        if 4 ≤ u.length then
          let clean := u.trim.toLower
          api.moveUci s (clean.take 2) ((clean.drop 2).take 2)
            (if 5 ≤ clean.length then some (((clean.drop 4).take 1).toLower) else none)
        else none
      | none => none
    match attempt1 with
    | some (bm, s2) => (some bm, s2)
    | none =>
      match move.san with
      | some sa =>
        if sa = "" then (none, s)
        else
          match api.moveSan s sa with
          | some (bm, s2) => (some bm, s2)
          | none => (none, s)
      | none => (none, s)

/-- One iteration of the `for (const mv of mvs)` loop body of
`deriveSnapshot` on a non-termination entry: try the move on the chess.js
board (re-reading its FEN either way), fall back to the entry's provided
`fen_after` and sliced UCI squares when parsing fails, and update the
last-move highlight only when a move was applied. Returns the new
`(fen, lastMove, chess)` state. -/
def snapStep {S : Type} (api : ChessApi S) (fen : String) (lm : Option BoardMove)
    (ch : Option S) (mv : MoveEntry) : String × Option BoardMove × Option S :=
  let step1 : Option BoardMove × String × Option S :=
    match ch with
    | some s =>
      let as2 := applyMoveToBoard api s mv
      (as2.1, api.fen as2.2, some as2.2)
    | none => (none, fen, none)
  let step2 : Option BoardMove × String :=
    match step1.1 with
    | some a => (some a, step1.2.1)
    | none =>
      match mv.fen_after with
      | some fa =>
        if fa = "" then (none, step1.2.1)
        else
          (match mv.uci with
           | some u => if 4 ≤ u.length then some ⟨u.take 2, (u.drop 2).take 2⟩ else none
           | none => none,
           fa)
      | none => (none, step1.2.1)
  (step2.2, (match step2.1 with | some a => some a | none => lm), step1.2.2)

/-- The `for (const mv of mvs)` loop of `deriveSnapshot`, threading the
mutable `fen`, `lastMove` and `chess` variables through `snapStep`; the
`break` on a termination entry returns the accumulated state. -/
def snapLoop {S : Type} (api : ChessApi S) :
    String → Option BoardMove → Option S → List MoveEntry → String × Option BoardMove
  | fen, lm, _, [] => (fen, lm)
  | fen, lm, ch, mv :: rest =>
    if mv.event = some "termination" then (fen, lm)
    else
      snapLoop api (snapStep api fen lm ch mv).1 (snapStep api fen lm ch mv).2.1
        (snapStep api fen lm ch mv).2.2 rest

/-- Function `deriveSnapshot(startFen, mvs)` of the live-board component: the displayed
FEN and last-move highlight derived from the move entries. -/
def deriveSnapshot {S : Type} (api : ChessApi S) (startFen : String)
    (mvs : List MoveEntry) : String × Option BoardMove :=
  snapLoop api startFen none (api.init startFen) mvs

/-- Function `playableMoves` of the live-board component:
`moves.filter((m) => m.event !== "termination")`. -/
def playableMoves (moves : List MoveEntry) : List MoveEntry :=
  moves.filter (fun m => m.event ≠ some "termination")

/-! ## Referee and GameRunner, modelled from the spec

The turn-orchestration core is not among the checked-in sources; the
following definitions are modelled from spec sections 3, 4.3 and 4.4.
The chess rules engine is an external collaborator (spec section 6) and
stays abstract. The illegal-move allowance is a configuration field, per
the `illegal_move_limit` payload/request fields above and the spec's
design note that variant configs carry a configurable illegal-move
allowance before termination; the spec body's "exactly one illegal reply
ends the game" is the special case of limit 1. -/

/-- A side of the chess game. -/
inductive Side
  | white
  | black
deriving DecidableEq, Repr

/-- The opposite side. -/
def Side.other : Side → Side
  | .white => .black
  | .black => .white

/-- Modelled from the spec: terminal statuses reported by the external
rules engine (`status(fen) -> {ongoing, checkmate, stalemate, draw-by-X}`). -/
inductive EngineStatus
  | ongoing
  | checkmate
  | stalemate
  | drawByRule
deriving DecidableEq, Repr

/-- Modelled from the spec: the external Rules Engine interface
(spec section 6): `apply(fen, move) -> fen'` (none = illegal),
`status(fen)`, `to_san(fen, move)`. -/
structure RulesEngine (Fen Move : Type) where
  apply : Fen → Move → Option Fen
  status : Fen → EngineStatus
  toSan : Fen → Move → String

/-- Termination reasons of a `GameSession` (spec section 3). -/
inductive Reason
  | checkmate
  | stalemate
  | draw_rule
  | illegal_move
  | ply_limit
  | resignation
deriving DecidableEq, Repr

/-- Game results of a `GameSession` (spec section 3). -/
inductive GameResult
  | white
  | black
  | draw
  | unterminated
deriving DecidableEq, Repr

/-- Modelled from the spec: a `TurnRecord` (spec section 3): ply index,
side to move, FEN before/after, the normalized move if any, SAN, and the
legality flag. -/
structure TurnRecord (Fen Move : Type) where
  ply : Nat
  side : Side
  fen_before : Fen
  fen_after : Fen
  mv : Option Move
  san : String
  legal : Bool
deriving DecidableEq, Repr

/-- Modelled from the spec: per-game configuration consumed by the core:
ply ceiling and the illegal-move allowance (`illegal_move_limit`). -/
structure GameConfig where
  plyCeiling : Nat
  illegalLimit : Nat
deriving DecidableEq, Repr

/-- Final result and termination reason of a game
(`none` reason = inputs exhausted while still ongoing). -/
structure GameOutcome where
  result : GameResult
  reason : Option Reason
deriving DecidableEq, Repr

/-- The result scoring a loss for the given side. -/
def lossFor : Side → GameResult
  | .white => .black
  | .black => .white

/-- Result derived from a terminal rules-engine status: checkmate is a loss
for the side to move, the other terminal statuses are draws (spec 4.3 (a)). -/
def resultOfStatus (st : EngineStatus) (sideToMove : Side) : GameResult :=
  match st with
  | .checkmate => lossFor sideToMove
  | _ => .draw

/-- Termination reason derived from a terminal rules-engine status. -/
def reasonOfStatus : EngineStatus → Reason
  | .checkmate => .checkmate
  | .stalemate => .stalemate
  | _ => .draw_rule

/-- Modelled from the spec: the Referee/GameRunner loop (spec 4.3, 4.4).
Each ply, in priority order: (a) a terminal rules-engine status terminates
with the derived result; (c') the configured ply ceiling terminates with
`ply_limit`/draw; otherwise the next normalized reply is consumed:
`none` (unparseable) or a move rejected by `apply` counts against the
acting side's illegal allowance — reaching the configured limit
terminates with `illegal_move` and a loss for that side, below the limit
the illegal record is appended and the same side retries; a legal move is
applied, recorded, and the other side moves. The inputs are the
normalized replies in arrival order; exhausting them leaves the game
unterminated. -/
def runFrom {Fen Move : Type} (eng : RulesEngine Fen Move) (cfg : GameConfig) :
    List (Option Move) → Fen → Side → Nat → Nat → Nat →
    List (TurnRecord Fen Move) × GameOutcome
  | [], fen, side, ply, _, _ =>
    if eng.status fen ≠ .ongoing then
      ([], ⟨resultOfStatus (eng.status fen) side, some (reasonOfStatus (eng.status fen))⟩)
    else if cfg.plyCeiling ≤ ply then
      ([], ⟨.draw, some .ply_limit⟩)
    else
      ([], ⟨.unterminated, none⟩)
  | inp :: rest, fen, side, ply, illW, illB =>
    if eng.status fen ≠ .ongoing then
      ([], ⟨resultOfStatus (eng.status fen) side, some (reasonOfStatus (eng.status fen))⟩)
    else if cfg.plyCeiling ≤ ply then
      ([], ⟨.draw, some .ply_limit⟩)
    else
      match inp.bind (eng.apply fen) with
      | some fen2 =>
        let rec0 : TurnRecord Fen Move :=
          ⟨ply, side, fen, fen2, inp,
           (match inp with | some m => eng.toSan fen m | none => ""), true⟩
        let next := runFrom eng cfg rest fen2 side.other (ply + 1) illW illB
        (rec0 :: next.1, next.2)
      | none =>
        let cnt := (match side with | .white => illW | .black => illB) + 1
        let rec0 : TurnRecord Fen Move := ⟨ply, side, fen, fen, inp, "", false⟩
        if cfg.illegalLimit ≤ cnt then
          ([rec0], ⟨lossFor side, some .illegal_move⟩)
        else
          let next := runFrom eng cfg rest fen side (ply + 1)
            (match side with | .white => cnt | .black => illW)
            (match side with | .white => illB | .black => cnt)
          (rec0 :: next.1, next.2)

/-- Modelled from the spec: run a whole game from the starting position,
White to move, empty record list and zero illegal counts. -/
def runGame {Fen Move : Type} (eng : RulesEngine Fen Move) (cfg : GameConfig)
    (fen0 : Fen) (inputs : List (Option Move)) :
    List (TurnRecord Fen Move) × GameOutcome :=
  runFrom eng cfg inputs fen0 .white 0 0 0

/-- A concrete instance of the abstract rules engine used to evaluate the
model on closed inputs: positions are counters, move `0` is the only legal
move, and no position is terminal. -/
def natEngine : RulesEngine Nat Nat :=
  { apply := fun f m => if m = 0 then some (f + 1) else none
    status := fun _ => .ongoing
    toSan := fun _ m => toString m }

/-- FEN chaining of a record list started at `fen`: each record's
`fen_before` is the previous record's `fen_after` (the first record's
`fen_before` is `fen`). -/
def ChainFrom {Fen Move : Type} (fen : Fen) : List (TurnRecord Fen Move) → Prop
  | [] => True
  | r :: rest => r.fen_before = fen ∧ ChainFrom r.fen_after rest

/-- Every record of the list except possibly the final one carries
`legal = true`. -/
def LegalInit {Fen Move : Type} : List (TurnRecord Fen Move) → Prop
  | [] => True
  | [_] => True
  | r :: rest => r.legal = true ∧ LegalInit rest

/-! ## Move Normalizer, modelled from the spec (section 4.2)

`normalize(raw_text, expected_notation, board) -> MoveCandidate`, a cascade
of direct parse, optional assisted extraction, and a fallback token scan,
every candidate re-validated against the rules engine. SAN parsing and
FEN diffing are rules-engine services (external) and stay abstract. -/

/-- Promotion piece of a UCI move (`[qrbn]`). -/
inductive PromoPiece
  | q
  | r
  | b
  | n
deriving DecidableEq, Repr

/-- A UCI coordinate move: from/to file (`a`..`h` as 0..7) and rank
(`1`..`8` as 0..7), with an optional promotion piece. -/
structure UciMove where
  fromFile : Fin 8
  fromRank : Fin 8
  toFile : Fin 8
  toRank : Fin 8
  promo : Option PromoPiece
deriving DecidableEq, Repr

/-- File letter of a file index: `a`..`h`. -/
def fileChar (f : Fin 8) : Char := Char.ofNat (97 + f.val)

/-- Rank digit of a rank index: `1`..`8`. -/
def rankChar (r : Fin 8) : Char := Char.ofNat (49 + r.val)

/-- Promotion letter. -/
def promoChar : PromoPiece → Char
  | .q => 'q'
  | .r => 'r'
  | .b => 'b'
  | .n => 'n'

/-- Rendering `render_uci`: the standard 4-5 character UCI text of a move. -/
def renderUci (m : UciMove) : String :=
  String.mk ([fileChar m.fromFile, rankChar m.fromRank, fileChar m.toFile,
    rankChar m.toRank] ++ (match m.promo with | some p => [promoChar p] | none => []))

/-- Parse a file letter `a`..`h`. -/
def parseFile (c : Char) : Option (Fin 8) :=
  if h : 97 ≤ c.toNat ∧ c.toNat < 105 then some ⟨c.toNat - 97, by omega⟩ else none

/-- Parse a rank digit `1`..`8`. -/
def parseRank (c : Char) : Option (Fin 8) :=
  if h : 49 ≤ c.toNat ∧ c.toNat < 57 then some ⟨c.toNat - 49, by omega⟩ else none

/-- Parse a promotion letter `q`, `r`, `b` or `n`. -/
def parsePromo (c : Char) : Option PromoPiece :=
  if c = 'q' then some .q
  else if c = 'r' then some .r
  else if c = 'b' then some .b
  else if c = 'n' then some .n
  else none

/-- Match the `[a-h][1-8][a-h][1-8][qrbn]?` pattern at the head of the
character list (greedy on the promotion letter). -/
def matchUciAt : List Char → Option UciMove
  | c1 :: c2 :: c3 :: c4 :: rest =>
    match parseFile c1, parseRank c2, parseFile c3, parseRank c4 with
    | some f1, some r1, some f2, some r2 =>
      some ⟨f1, r1, f2, r2, match rest with | c5 :: _ => parsePromo c5 | [] => none⟩
    | _, _, _, _ => none
  | _ => none

/-- Modelled from the spec: "scan for a 4-5 character
`[a-h][1-8][a-h][1-8][qrbn]?` token" — first match wins. -/
def scanUci : List Char → Option UciMove
  | [] => none
  | c :: rest =>
    match matchUciAt (c :: rest) with
    | some m => some m
    | none => scanUci rest

/-- Modelled from the spec: the per-position board view the normalizer
validates against. `legalMoves` is the rules engine's legal-move list;
`sanParse` and `fenDiffCandidates` are its SAN parser and the set of
moves whose application yields a given FEN (both external services). -/
structure BoardView where
  legalMoves : List UciMove
  sanParse : String → Option UciMove
  fenDiffCandidates : String → List UciMove

/-- The notation a reply is expected in (spec: `san`|`uci`|`fen`). -/
inductive ReplyFormat
  | uci
  | san
  | fen
deriving DecidableEq, Repr

/-- Legality verdict of a normalized candidate. -/
inductive Verdict
  | legal
  | illegal
  | unparseable
deriving DecidableEq, Repr

/-- Which normalization stage produced the winning candidate. -/
inductive NormStage
  | direct
  | assisted
  | fallback
deriving DecidableEq, Repr

/-- Modelled from the spec: a `MoveCandidate` — raw text, extraction stage
used, parsed move if any, legality verdict. -/
structure MoveCandidate where
  raw : String
  stage : Option NormStage
  mv : Option UciMove
  verdict : Verdict
deriving DecidableEq, Repr

/-- Modelled from the spec: normalizer configuration — whether the
assisted "move-guard" stage is enabled, and that untrusted secondary
agent itself. -/
structure NormalizerConfig where
  assistEnabled : Bool
  assistFn : String → Option String

/-- First line of a reply. -/
def firstLine (s : String) : String :=
  String.mk (s.data.takeWhile (fun c => c ≠ '\n'))

/-- Whitespace test used for tokenization. -/
def isWsp (c : Char) : Bool :=
  c = ' ' || c = '\n' || c = '\t' || c = '\r'

/-- First whitespace-delimited token of a reply (fallback stage). -/
def firstToken (s : String) : String :=
  String.mk ((s.data.dropWhile isWsp).takeWhile (fun c => !isWsp c))

/-- Re-validate a candidate against the rules engine's legal moves:
a well-formed but illegal move is rejected, never corrected. -/
def validateCandidate (board : BoardView) (raw : String) (st : NormStage)
    (m : UciMove) : MoveCandidate :=
  if m ∈ board.legalMoves then ⟨raw, some st, some m, .legal⟩
  else ⟨raw, some st, some m, .illegal⟩

/-- Modelled from the spec: stage 1 direct parse — UCI token scan, SAN
parse of the trimmed first line, or whole-reply FEN diff (rejected unless
exactly one candidate move matches). -/
def directParse (fmt : ReplyFormat) (board : BoardView) (raw : String) :
    Option UciMove :=
  match fmt with
  | .uci => scanUci raw.data
  | .san => board.sanParse (firstLine raw).trim
  | .fen =>
    match board.fenDiffCandidates raw with
    | [m] => some m
    | _ => none

/-- Modelled from the spec: `normalize(raw_text, expected_notation, board)`.
Cascade: direct parse, then (if enabled) the assisted move-guard whose
suggested UCI token is re-parsed and re-validated, then the fallback
first-token scan (tried as UCI, then as SAN); any candidate is validated
against the board, and no candidate at all yields `unparseable`. -/
def normalize (cfg : NormalizerConfig) (raw : String) (fmt : ReplyFormat)
    (board : BoardView) : MoveCandidate :=
  match directParse fmt board raw with
  | some m => validateCandidate board raw .direct m
  | none =>
    match (if cfg.assistEnabled then
            (cfg.assistFn raw).bind (fun t => scanUci t.data)
           else none) with
    | some m => validateCandidate board raw .assisted m
    | none =>
      match scanUci (firstToken raw).data with
      | some m => validateCandidate board raw .fallback m
      | none =>
        match board.sanParse (firstToken raw) with
        | some m => validateCandidate board raw .fallback m
        | none => ⟨raw, none, none, .unparseable⟩

/-! ## Transport retry and the interactive worker pool, modelled from the
spec (sections 4.5, 5, 7) -/

/-- Outcome of one outbound request attempt
(`send(messages, model_id, timeout) -> raw_text | error`). -/
inductive TransportResult
  | ok (raw : String)
  | timeout
  | error
deriving DecidableEq, Repr

/-- Whether an attempt succeeded. -/
def TransportResult.isOk : TransportResult → Bool
  | .ok _ => true
  | _ => false

/-- Modelled from the spec: attempt the request at index `i`, then retry on
timeout/transport error while retries remain. -/
def trySend (f : Nat → TransportResult) : Nat → Nat → Option String
  | i, 0 =>
    match f i with
    | .ok r => some r
    | _ => none
  | i, rem + 1 =>
    match f i with
    | .ok r => some r
    | _ => trySend f (i + 1) rem

/-- Modelled from the spec: a request is attempted once and retried up to
`retryBound` further times. -/
def sendWithRetry (f : Nat → TransportResult) (retryBound : Nat) : Option String :=
  trySend f 0 retryBound

/-- How a turn's model request resolves: a raw reply to normalize, or —
after retries exhaust — the turn is treated as unparseable, ending only
that game. -/
inductive TurnOutcome
  | reply (raw : String)
  | unparseableEnd
deriving DecidableEq, Repr

/-- Modelled from the spec: resolve one game's outstanding turn through the
transport; remaining failure converts to the unparseable verdict. -/
def resolveTurn (retryBound : Nat) (f : Nat → TransportResult) : TurnOutcome :=
  match sendWithRetry f retryBound with
  | some raw => .reply raw
  | none => .unparseableEnd

/-- Modelled from the spec: one interactive scheduling cycle resolves every
active game's request independently. -/
def runCycle (retryBound : Nat) (fs : List (Nat → TransportResult)) :
    List TurnOutcome :=
  fs.map (resolveTurn retryBound)

/-- State of the interactive transport's bounded worker pool: requests
waiting to be issued, requests in flight, and resolved requests. -/
structure PoolState where
  pending : List Nat
  inFlight : List Nat
  done : List Nat
deriving DecidableEq, Repr

/-- Modelled from the spec: transitions of the bounded worker pool under
interactive mode with concurrency limit `K` — a pending request may be
issued only while fewer than `K` are outstanding; a completed request
leaves the pool; a failed attempt with retry budget left is re-queued. -/
inductive PoolStep (K : Nat) : PoolState → PoolState → Prop
  | issue (r : Nat) (rest inF dn : List Nat) (h : inF.length < K) :
      PoolStep K ⟨r :: rest, inF, dn⟩ ⟨rest, r :: inF, dn⟩
  | complete (pend inF1 inF2 dn : List Nat) (r : Nat) :
      PoolStep K ⟨pend, inF1 ++ r :: inF2, dn⟩ ⟨pend, inF1 ++ inF2, r :: dn⟩
  | requeue (pend inF1 inF2 dn : List Nat) (r : Nat) :
      PoolStep K ⟨pend, inF1 ++ r :: inF2, dn⟩ ⟨pend ++ [r], inF1 ++ inF2, dn⟩

/-- Reflexive-transitive closure of `PoolStep`: every pool state reachable
by some interleaving of issues, completions and requeues. -/
inductive PoolReachable (K : Nat) : PoolState → PoolState → Prop
  | refl (s : PoolState) : PoolReachable K s s
  | tail {a b c : PoolState} :
      PoolReachable K a b → PoolStep K b c → PoolReachable K a c

/-! ## Color assignment scheduling, modelled from the spec (section 6)

Configuration surface: color assignment `white`|`black`|`both`, where
`both` doubles the requested game count, half each color. -/

/-- Color assignment of the requesting player's games. -/
inductive ColorAssignment
  | white
  | black
  | both
deriving DecidableEq, Repr

/-- Modelled from the spec: the per-game color assignments scheduled for a
request of `n` games — `both` schedules `n` games as White plus `n` games
as Black. -/
def scheduleColors (n : Nat) : ColorAssignment → List Side
  | .white => List.replicate n Side.white
  | .black => List.replicate n Side.black
  | .both => List.replicate n Side.white ++ List.replicate n Side.black

/-! ## Concrete instances used to evaluate the models on closed inputs -/

/-- A concrete board view whose only legal move is e2e4. -/
def sampleBoard : BoardView :=
  { legalMoves := [⟨4, 1, 4, 3, none⟩]
    sanParse := fun _ => none
    fenDiffCandidates := fun _ => [] }

/-- A concrete normalizer configuration with the assisted stage disabled. -/
def sampleNormConfig : NormalizerConfig :=
  { assistEnabled := false
    assistFn := fun _ => none }

/-- Two concrete per-game transports: the first times out on every attempt,
the second succeeds immediately. -/
def sampleTransports : List (Nat → TransportResult) :=
  [fun _ => .timeout, fun _ => .ok "e2e4"]

/-! # Theorems -/

/-- No replacement string produced by `escapeChar` contains a raw `<`, `>`
or `"`: the four entity strings are made of safe characters, and any other
character is kept only when it is none of the escaped four. -/
theorem escapeChar_no_special (c : Char) :
    '<' ∉ (escapeChar c).data ∧ '>' ∉ (escapeChar c).data ∧
      '"' ∉ (escapeChar c).data := by
  unfold escapeChar
  split
  · decide
  split
  · decide
  split
  · decide
  split
  · decide
  rename_i h1 h2 h3 h4
  refine ⟨fun hm => ?_, fun hm => ?_, fun hm => ?_⟩
  · exact h2 (List.mem_singleton.mp hm).symm
  · exact h3 (List.mem_singleton.mp hm).symm
  · exact h4 (List.mem_singleton.mp hm).symm

/-- C9: for every input string `s`, `escapeHtml s` contains no occurrence of
the characters `<`, `>` or `"`; every occurrence of `&`, `<`, `>` and `"`
in `s` is replaced by its HTML entity. -/
theorem escapeHtml_no_specials (s : String) :
    '<' ∉ (escapeHtml s).data ∧ '>' ∉ (escapeHtml s).data ∧
      '"' ∉ (escapeHtml s).data := by
  refine ⟨fun hm => ?_, fun hm => ?_, fun hm => ?_⟩
  · obtain ⟨c, -, hc⟩ := List.mem_flatMap.mp hm
    exact (escapeChar_no_special c).1 hc
  · obtain ⟨c, -, hc⟩ := List.mem_flatMap.mp hm
    exact (escapeChar_no_special c).2.1 hc
  · obtain ⟨c, -, hc⟩ := List.mem_flatMap.mp hm
    exact (escapeChar_no_special c).2.2 hc

/-- C10: `toggleSelect` preserves the live-boards selection invariant — the
selected game-id list stays duplicate-free and never exceeds the board
count (toggling a selected id removes it; adding past capacity evicts the
oldest ids). -/
theorem toggleSelect_invariant (count : Nat) (prev : List String) (id : String)
    (hcount : 1 ≤ count) (hnd : prev.Nodup) (hlen : prev.length ≤ count) :
    (toggleSelect count prev id).Nodup ∧
      (toggleSelect count prev id).length ≤ count := by
  unfold toggleSelect
  by_cases hmem : id ∈ prev
  · simp only [if_pos hmem]
    exact ⟨hnd.filter _, le_trans (List.length_filter_le _ _) hlen⟩
  · simp only [if_neg hmem]
    have hndnext : (prev ++ [id]).Nodup := by
      simp [List.nodup_append, hnd, hmem]
    by_cases hlt : count < (prev ++ [id]).length
    · simp only [if_pos hlt]
      refine ⟨List.Nodup.sublist (List.drop_sublist _ _) hndnext, ?_⟩
      rw [List.length_drop]
      omega
    · simp only [if_neg hlt]
      exact ⟨hndnext, Nat.not_lt.mp hlt⟩

/-- Closed instance of `toggleSelect_invariant`: adding a new id to a
one-element selection with capacity 2. -/
theorem toggleSelect_invariant_witness :
    (1 ≤ 2 ∧ (["g1"] : List String).Nodup ∧ (["g1"] : List String).length ≤ 2) ∧
    ((toggleSelect 2 ["g1"] "g2").Nodup ∧ (toggleSelect 2 ["g1"] "g2").length ≤ 2) :=
  ⟨⟨by decide, by decide, by decide⟩,
    toggleSelect_invariant 2 ["g1"] "g2" (by decide) (by decide) (by decide)⟩

/-- C6: color assignment `both` schedules exactly twice the requested game
count, half with each color; in particular a request of 2 games under
`both` yields exactly 4 game sessions, two per color. -/
theorem scheduleColors_both_doubles (n : Nat) :
    (scheduleColors n .both).length = 2 * n ∧
    (scheduleColors n .both).count Side.white = n ∧
    (scheduleColors n .both).count Side.black = n ∧
    (scheduleColors 2 .both).length = 4 ∧
    (scheduleColors 2 .both).count Side.white = 2 ∧
    (scheduleColors 2 .both).count Side.black = 2 := by
  refine ⟨?_, ?_, ?_, by decide, by decide, by decide⟩ <;>
    simp [scheduleColors, List.count_append, List.count_replicate, two_mul]

/-- Unfolding equation of `snapLoop` on a non-empty entry list. -/
theorem snapLoop_cons {S : Type} (api : ChessApi S) (fen : String)
    (lm : Option BoardMove) (ch : Option S) (mv : MoveEntry)
    (rest : List MoveEntry) :
    snapLoop api fen lm ch (mv :: rest)
      = if mv.event = some "termination" then (fen, lm)
        else
          snapLoop api (snapStep api fen lm ch mv).1 (snapStep api fen lm ch mv).2.1
            (snapStep api fen lm ch mv).2.2 rest := by
  rw [snapLoop.eq_def]

/-- The snapshot loop never looks past the first termination entry: running
it on the `takeWhile` prefix gives the same state as running it on the full
list, for every starting state. -/
theorem snapLoop_takeWhile {S : Type} (api : ChessApi S) (mvs : List MoveEntry) :
    ∀ (fen : String) (lm : Option BoardMove) (ch : Option S),
      snapLoop api fen lm ch
          (mvs.takeWhile (fun m => m.event != some "termination"))
        = snapLoop api fen lm ch mvs := by
  induction mvs with
  | nil => intro fen lm ch; rfl
  | cons mv rest ih =>
    intro fen lm ch
    by_cases h : mv.event = some "termination"
    · have hb : (mv.event != some "termination") = false := by simp [h]
      rw [List.takeWhile_cons, hb]
      simp only [Bool.false_eq_true, if_false]
      rw [snapLoop_cons, if_pos h]
      rfl
    · have hb : (mv.event != some "termination") = true := by simp [h]
      rw [List.takeWhile_cons, hb]
      simp only [if_true]
      rw [snapLoop_cons, snapLoop_cons, if_neg h, if_neg h]
      exact ih _ _ _

/-- C8: `deriveSnapshot` computes the displayed FEN and last-move highlight
from the entries strictly before the first entry whose `event` is
`"termination"`; entries at or after that point never affect the result. -/
theorem deriveSnapshot_ignores_after_termination {S : Type} (api : ChessApi S)
    (startFen : String) (mvs : List MoveEntry) :
    deriveSnapshot api startFen mvs
      = deriveSnapshot api startFen
          (mvs.takeWhile (fun m => m.event != some "termination")) := by
  unfold deriveSnapshot
  exact (snapLoop_takeWhile api mvs _ _ _).symm

/-- Unfolding equation of `runFrom` on exhausted inputs. -/
theorem runFrom_nil {Fen Move : Type} (eng : RulesEngine Fen Move)
    (cfg : GameConfig) (fen : Fen) (side : Side) (ply illW illB : Nat) :
    runFrom eng cfg [] fen side ply illW illB
      = if eng.status fen ≠ .ongoing then
          ([], ⟨resultOfStatus (eng.status fen) side,
                some (reasonOfStatus (eng.status fen))⟩)
        else if cfg.plyCeiling ≤ ply then
          ([], ⟨.draw, some .ply_limit⟩)
        else
          ([], ⟨.unterminated, none⟩) := rfl

/-- Unfolding equation of `runFrom` on a remaining input. -/
theorem runFrom_cons {Fen Move : Type} (eng : RulesEngine Fen Move)
    (cfg : GameConfig) (inp : Option Move) (rest : List (Option Move))
    (fen : Fen) (side : Side) (ply illW illB : Nat) :
    runFrom eng cfg (inp :: rest) fen side ply illW illB
      = if eng.status fen ≠ .ongoing then
          ([], ⟨resultOfStatus (eng.status fen) side,
                some (reasonOfStatus (eng.status fen))⟩)
        else if cfg.plyCeiling ≤ ply then
          ([], ⟨.draw, some .ply_limit⟩)
        else
          match inp.bind (eng.apply fen) with
          | some fen2 =>
            let rec0 : TurnRecord Fen Move :=
              ⟨ply, side, fen, fen2, inp,
               (match inp with | some m => eng.toSan fen m | none => ""), true⟩
            let next := runFrom eng cfg rest fen2 side.other (ply + 1) illW illB
            (rec0 :: next.1, next.2)
          | none =>
            let cnt := (match side with | .white => illW | .black => illB) + 1
            let rec0 : TurnRecord Fen Move := ⟨ply, side, fen, fen, inp, "", false⟩
            if cfg.illegalLimit ≤ cnt then
              ([rec0], ⟨lossFor side, some .illegal_move⟩)
            else
              let next := runFrom eng cfg rest fen side (ply + 1)
                (match side with | .white => cnt | .black => illW)
                (match side with | .white => illB | .black => cnt)
              (rec0 :: next.1, next.2) := rfl

/-- Every record list produced by the Referee/GameRunner loop chains from
its starting FEN: a record's `fen_before` is the previous record's
`fen_after` (an illegal record leaves the board unchanged, so the chain
holds across it as well). -/
theorem runFrom_chain {Fen Move : Type} (eng : RulesEngine Fen Move)
    (cfg : GameConfig) :
    ∀ (inputs : List (Option Move)) (fen : Fen) (side : Side) (ply illW illB : Nat),
      ChainFrom fen (runFrom eng cfg inputs fen side ply illW illB).1 := by
  intro inputs
  induction inputs with
  | nil =>
    intro fen side ply illW illB
    rw [runFrom_nil]
    split
    · trivial
    split
    · trivial
    trivial
  | cons inp rest ih =>
    intro fen side ply illW illB
    rw [runFrom_cons]
    split
    · trivial
    split
    · trivial
    split
    · rename_i fen2 heq
      exact ⟨rfl, ih fen2 side.other (ply + 1) illW illB⟩
    · cases side <;>
      · simp only []
        split
        · exact ⟨rfl, trivial⟩
        · exact ⟨rfl, ih fen _ (ply + 1) _ _⟩

/-- A chained record list satisfies the indexwise FEN-chaining equation. -/
theorem ChainFrom_get {Fen Move : Type} :
    ∀ (l : List (TurnRecord Fen Move)) (fen : Fen), ChainFrom fen l →
      ∀ (i : Nat) (h1 : i + 1 < l.length),
        (l.get ⟨i, by omega⟩).fen_after = (l.get ⟨i + 1, h1⟩).fen_before := by
  intro l
  induction l with
  | nil => intro fen _ i h1; simp at h1
  | cons r rest ih =>
    intro fen hch i h1
    cases i with
    | zero =>
      cases rest with
      | nil => simp at h1
      | cons r2 rest2 => exact hch.2.1.symm
    | succ j =>
      have hj : j + 1 < rest.length := by simpa using h1
      have := ih r.fen_after hch.2 j hj
      simpa using this

/-- C2: in every game in which every reply was legal, the TurnRecord chain
satisfies `fen_after[i] = fen_before[i+1]` for every index `i`. -/
theorem runGame_fen_chain {Fen Move : Type} (eng : RulesEngine Fen Move)
    (cfg : GameConfig) (fen0 : Fen) (inputs : List (Option Move))
    (hleg : ∀ r ∈ (runGame eng cfg fen0 inputs).1, r.legal = true)
    (i : Nat) (h1 : i + 1 < (runGame eng cfg fen0 inputs).1.length) :
    (((runGame eng cfg fen0 inputs).1).get ⟨i, by omega⟩).fen_after
      = (((runGame eng cfg fen0 inputs).1).get ⟨i + 1, h1⟩).fen_before :=
  ChainFrom_get _ fen0 (runFrom_chain eng cfg inputs fen0 .white 0 0 0) i h1

/-- Closed instance of `runGame_fen_chain`: a three-ply all-legal game over
the concrete counter engine chains at index 0. -/
theorem runGame_fen_chain_witness :
    (∀ r ∈ (runGame natEngine ⟨10, 1⟩ 0 [some 0, some 0, some 0]).1, r.legal = true) ∧
    (0 + 1 < (runGame natEngine ⟨10, 1⟩ 0 [some 0, some 0, some 0]).1.length) ∧
    (((runGame natEngine ⟨10, 1⟩ 0 [some 0, some 0, some 0]).1).get
        ⟨0, by decide⟩).fen_after
      = (((runGame natEngine ⟨10, 1⟩ 0 [some 0, some 0, some 0]).1).get
        ⟨1, by decide⟩).fen_before :=
  ⟨by decide, by decide,
    runGame_fen_chain natEngine ⟨10, 1⟩ 0 [some 0, some 0, some 0]
      (by decide) 0 (by decide)⟩

/-- Length and outcome invariant of the Referee/GameRunner loop, generalized
over the running ply count: records never push the ply count past the
ceiling, a run that ends unterminated stayed strictly below the ceiling,
and a `ply_limit` termination is a draw reached exactly at the ceiling. -/
theorem runFrom_length_outcome {Fen Move : Type} (eng : RulesEngine Fen Move)
    (cfg : GameConfig) :
    ∀ (inputs : List (Option Move)) (fen : Fen) (side : Side) (ply illW illB : Nat),
      ply ≤ cfg.plyCeiling →
      (runFrom eng cfg inputs fen side ply illW illB).1.length + ply ≤ cfg.plyCeiling ∧
      ((runFrom eng cfg inputs fen side ply illW illB).2.result = .unterminated →
        (runFrom eng cfg inputs fen side ply illW illB).1.length + ply < cfg.plyCeiling) ∧
      ((runFrom eng cfg inputs fen side ply illW illB).2.reason = some .ply_limit →
        (runFrom eng cfg inputs fen side ply illW illB).2.result = .draw ∧
        (runFrom eng cfg inputs fen side ply illW illB).1.length + ply = cfg.plyCeiling) := by
  intro inputs
  induction inputs with
  | nil =>
    intro fen side ply illW illB hp
    rw [runFrom_nil]
    split
    · refine ⟨by simpa using hp, fun hres => ?_, fun hrsn => ?_⟩
      · exfalso
        revert hres
        cases (eng.status fen) <;> cases side <;> simp [resultOfStatus, lossFor]
      · exfalso
        revert hrsn
        cases (eng.status fen) <;> simp [reasonOfStatus]
    split
    · refine ⟨by simpa using hp, fun hres => absurd hres (by simp), fun hrsn => ?_⟩
      refine ⟨rfl, ?_⟩
      simp only [List.length_nil]
      omega
    · refine ⟨by simpa using hp, fun hres => ?_, fun hrsn => absurd hrsn (by simp)⟩
      simp only [List.length_nil]
      omega
  | cons inp rest ih =>
    intro fen side ply illW illB hp
    rw [runFrom_cons]
    split
    · refine ⟨by simpa using hp, fun hres => ?_, fun hrsn => ?_⟩
      · exfalso
        revert hres
        cases (eng.status fen) <;> cases side <;> simp [resultOfStatus, lossFor]
      · exfalso
        revert hrsn
        cases (eng.status fen) <;> simp [reasonOfStatus]
    split
    · refine ⟨by simpa using hp, fun hres => absurd hres (by simp), fun hrsn => ?_⟩
      refine ⟨rfl, ?_⟩
      simp only [List.length_nil]
      omega
    split
    · rename_i fen2 heq
      have H := ih fen2 side.other (ply + 1) illW illB (by omega)
      simp only [List.length_cons]
      refine ⟨by have := H.1; omega, fun hres => by have := H.2.1 hres; omega,
        fun hrsn => ⟨(H.2.2 hrsn).1, by have := (H.2.2 hrsn).2; omega⟩⟩
    · cases side with
      | white =>
        simp only []
        split
        · refine ⟨?_, fun hres => ?_, fun hrsn => absurd hrsn (by simp)⟩
          · simp only [List.length_cons, List.length_nil]
            omega
          · exfalso
            revert hres
            simp [lossFor]
        · have H := ih fen Side.white (ply + 1) (illW + 1) illB (by omega)
          simp only [List.length_cons]
          refine ⟨by have := H.1; omega, fun hres => by have := H.2.1 hres; omega,
            fun hrsn => ⟨(H.2.2 hrsn).1, by have := (H.2.2 hrsn).2; omega⟩⟩
      | black =>
        simp only []
        split
        · refine ⟨?_, fun hres => ?_, fun hrsn => absurd hrsn (by simp)⟩
          · simp only [List.length_cons, List.length_nil]
            omega
          · exfalso
            revert hres
            simp [lossFor]
        · have H := ih fen Side.black (ply + 1) illW (illB + 1) (by omega)
          simp only [List.length_cons]
          refine ⟨by have := H.1; omega, fun hres => by have := H.2.1 hres; omega,
            fun hrsn => ⟨(H.2.2 hrsn).1, by have := (H.2.2 hrsn).2; omega⟩⟩

/-- C3: a game configured with ply ceiling `N` never produces more than `N`
TurnRecords; if it is still ongoing when the ply count reaches `N` it is
terminated with reason `ply_limit` and result draw (equivalently: a run is
never left unterminated at the ceiling, and every `ply_limit` termination
is a draw with exactly `N` records). -/
theorem runGame_ply_ceiling {Fen Move : Type} (eng : RulesEngine Fen Move)
    (cfg : GameConfig) (fen0 : Fen) (inputs : List (Option Move)) :
    (runGame eng cfg fen0 inputs).1.length ≤ cfg.plyCeiling ∧
    ((runGame eng cfg fen0 inputs).2.result = .unterminated →
      (runGame eng cfg fen0 inputs).1.length < cfg.plyCeiling) ∧
    ((runGame eng cfg fen0 inputs).2.reason = some .ply_limit →
      (runGame eng cfg fen0 inputs).2.result = .draw ∧
      (runGame eng cfg fen0 inputs).1.length = cfg.plyCeiling) := by
  have H := runFrom_length_outcome eng cfg inputs fen0 .white 0 0 0 (Nat.zero_le _)
  unfold runGame
  refine ⟨by have := H.1; omega, fun hres => by have := H.2.1 hres; omega,
    fun hrsn => ⟨(H.2.2 hrsn).1, by have := (H.2.2 hrsn).2; omega⟩⟩

/-- Closed instance of `runGame_ply_ceiling`: with ceiling 2 and three legal
replies available, the run stops at exactly 2 records with a
`ply_limit`/draw termination. -/
theorem runGame_ply_ceiling_witness :
    (runGame natEngine ⟨2, 1⟩ 0 [some 0, some 0, some 0]).2.reason
        = some .ply_limit ∧
    ((runGame natEngine ⟨2, 1⟩ 0 [some 0, some 0, some 0]).2.result = .draw ∧
      (runGame natEngine ⟨2, 1⟩ 0 [some 0, some 0, some 0]).1.length = 2) :=
  ⟨by decide,
    (runGame_ply_ceiling natEngine ⟨2, 1⟩ 0 [some 0, some 0, some 0]).2.2 (by decide)⟩

/-- Under an illegal-move limit of 1, every record produced by the
Referee/GameRunner loop except possibly the last one is legal: one illegal
or unparseable reply is terminal on the spot. -/
theorem runFrom_legalInit {Fen Move : Type}
    (eng : RulesEngine Fen Move) (cfg : GameConfig) (hL : cfg.illegalLimit = 1) :
    ∀ (inputs : List (Option Move)) (fen : Fen) (side : Side) (ply illW illB : Nat),
      LegalInit (runFrom eng cfg inputs fen side ply illW illB).1 := by
  intro inputs
  induction inputs with
  | nil =>
    intro fen side ply illW illB
    rw [runFrom_nil]
    split
    · trivial
    split
    · trivial
    · trivial
  | cons inp rest ih =>
    intro fen side ply illW illB
    rw [runFrom_cons]
    split
    · trivial
    split
    · trivial
    split
    · rename_i fen2 heq
      have H := ih fen2 side.other (ply + 1) illW illB
      cases hnl : (runFrom eng cfg rest fen2 side.other (ply + 1) illW illB).1 with
      | nil =>
        simp only []
        rw [hnl]
        trivial
      | cons r2 rest2 =>
        simp only []
        rw [hnl]
        rw [hnl] at H
        exact ⟨rfl, H⟩
    · cases side with
      | white =>
        simp only []
        rw [if_pos (by omega)]
        trivial
      | black =>
        simp only []
        rw [if_pos (by omega)]
        trivial

/-- A `LegalInit` record list is legal at every index before the last. -/
theorem LegalInit_get {Fen Move : Type} :
    ∀ (l : List (TurnRecord Fen Move)), LegalInit l →
      ∀ (i : Nat) (h1 : i + 1 < l.length),
        (l.get ⟨i, by omega⟩).legal = true := by
  intro l
  induction l with
  | nil => intro _ i h1; simp at h1
  | cons r rest ih =>
    intro hli i h1
    cases rest with
    | nil => simp at h1
    | cons r2 rest2 =>
      cases i with
      | zero => exact hli.1
      | succ j =>
        have hj : j + 1 < (r2 :: rest2).length := by simpa using h1
        simpa using ih hli.2 j hj

/-- C1 (amended): when the configured illegal-move limit is 1, a TurnRecord
recording an illegal or unparseable reply is the last record of its game —
no further records are appended after it. -/
theorem runGame_illegal_is_last_of_limit_one {Fen Move : Type}
    (eng : RulesEngine Fen Move) (cfg : GameConfig) (fen0 : Fen)
    (inputs : List (Option Move)) (hL : cfg.illegalLimit = 1)
    (i : Nat) (hi : i < (runGame eng cfg fen0 inputs).1.length)
    (hbad : (((runGame eng cfg fen0 inputs).1).get ⟨i, hi⟩).legal = false) :
    i = (runGame eng cfg fen0 inputs).1.length - 1 := by
  by_contra hne
  have h1 : i + 1 < (runGame eng cfg fen0 inputs).1.length := by omega
  have hleg : (((runGame eng cfg fen0 inputs).1).get ⟨i, hi⟩).legal = true :=
    LegalInit_get _ (runFrom_legalInit eng cfg hL inputs fen0 .white 0 0 0) i h1
  rw [hleg] at hbad
  exact Bool.noConfusion hbad

/-- Closed instance of `runGame_illegal_is_last_of_limit_one`: with limit 1,
a legal reply followed by an illegal one produces two records whose illegal
record sits at the final index. -/
theorem runGame_illegal_is_last_witness :
    ((⟨10, 1⟩ : GameConfig).illegalLimit = 1 ∧
      1 < (runGame natEngine ⟨10, 1⟩ 0 [some 0, some 99]).1.length ∧
      (((runGame natEngine ⟨10, 1⟩ 0 [some 0, some 99]).1).get
          ⟨1, by decide⟩).legal = false) ∧
    1 = (runGame natEngine ⟨10, 1⟩ 0 [some 0, some 99]).1.length - 1 :=
  ⟨⟨rfl, by decide, by decide⟩,
    runGame_illegal_is_last_of_limit_one natEngine ⟨10, 1⟩ 0 [some 0, some 99]
      rfl 1 (by decide) (by decide)⟩

/-- C1 (counterexample): the experiment-creation UI submits a configurable
`illegal_move_limit` — 3 by default — and under that submitted allowance a
game continues past an illegal reply: the run below records an illegal
reply at index 0 and still appends a second record, so an
illegal/unparseable record is not always the last record and the allowance
is configurable above one. -/
theorem illegal_allowance_counterexample :
    (handleSubmitPayload defaultExperimentForm).illegal_move_limit = 3 ∧
    (((runGame natEngine
        ⟨40, (handleSubmitPayload defaultExperimentForm).illegal_move_limit⟩
        0 [none, some 0]).1.get ⟨0, by decide⟩).legal = false ∧
      (runGame natEngine
        ⟨40, (handleSubmitPayload defaultExperimentForm).illegal_move_limit⟩
        0 [none, some 0]).1.length = 2) :=
  ⟨rfl, by decide, by decide⟩

/-- Parsing inverts rendering for file letters. -/
theorem parseFile_fileChar : ∀ f : Fin 8, parseFile (fileChar f) = some f := by
  decide

/-- Parsing inverts rendering for rank digits. -/
theorem parseRank_rankChar : ∀ r : Fin 8, parseRank (rankChar r) = some r := by
  decide

/-- Parsing inverts rendering for promotion letters. -/
theorem parsePromo_promoChar : ∀ p : PromoPiece, parsePromo (promoChar p) = some p := by
  intro p
  cases p <;> rfl

/-- The UCI token scan recovers exactly the rendered move from its own
rendering. -/
theorem scanUci_renderUci (m : UciMove) : scanUci (renderUci m).data = some m := by
  obtain ⟨f1, r1, f2, r2, promo⟩ := m
  cases promo with
  | none =>
    show scanUci [fileChar f1, rankChar r1, fileChar f2, rankChar r2] = _
    rw [scanUci]
    simp [matchUciAt, parseFile_fileChar, parseRank_rankChar]
  | some p =>
    show scanUci [fileChar f1, rankChar r1, fileChar f2, rankChar r2, promoChar p] = _
    rw [scanUci]
    simp [matchUciAt, parseFile_fileChar, parseRank_rankChar, parsePromo_promoChar]

/-- C4: Move Normalizer round-trip — for every board position and every move
`m` legal in that position, `normalize (render_uci m) uci board` returns the
same move `m` with verdict `legal`. -/
theorem normalize_renderUci_roundtrip (cfg : NormalizerConfig) (board : BoardView)
    (m : UciMove) (hm : m ∈ board.legalMoves) :
    (normalize cfg (renderUci m) .uci board).mv = some m ∧
    (normalize cfg (renderUci m) .uci board).verdict = .legal := by
  unfold normalize directParse
  rw [scanUci_renderUci]
  simp [validateCandidate, hm]

/-- Closed instance of `normalize_renderUci_roundtrip`: the move e2e4 on a
board whose legal-move list is exactly [e2e4]. -/
theorem normalize_roundtrip_witness :
    ((⟨4, 1, 4, 3, none⟩ : UciMove) ∈ sampleBoard.legalMoves) ∧
    ((normalize sampleNormConfig (renderUci ⟨4, 1, 4, 3, none⟩) .uci sampleBoard).mv
        = some ⟨4, 1, 4, 3, none⟩ ∧
      (normalize sampleNormConfig (renderUci ⟨4, 1, 4, 3, none⟩) .uci
          sampleBoard).verdict = .legal) :=
  ⟨by decide,
    normalize_renderUci_roundtrip sampleNormConfig sampleBoard ⟨4, 1, 4, 3, none⟩
      (by decide)⟩

/-- If every attempt in the retry window fails, the retry loop returns no
reply. -/
theorem trySend_none (f : Nat → TransportResult) :
    ∀ (rem i : Nat), (∀ k, i ≤ k → k ≤ i + rem → (f k).isOk = false) →
      trySend f i rem = none := by
  intro rem
  induction rem with
  | zero =>
    intro i h
    have h0 := h i le_rfl (by omega)
    cases hf : f i with
    | ok r =>
      rw [hf] at h0
      simp [TransportResult.isOk] at h0
    | timeout => rw [trySend, hf]
    | error => rw [trySend, hf]
  | succ rem ih =>
    intro i h
    have h0 := h i le_rfl (by omega)
    cases hf : f i with
    | ok r =>
      rw [hf] at h0
      simp [TransportResult.isOk] at h0
    | timeout =>
      rw [trySend, hf]
      exact ih (i + 1) (fun k hk1 hk2 => h k (by omega) (by omega))
    | error =>
      rw [trySend, hf]
      exact ih (i + 1) (fun k hk1 hk2 => h k (by omega) (by omega))

/-- C5: a model request whose every attempt within the configured retry
bound times out or fails with a transport error resolves — after the
retries — to the unparseable-reply outcome that terminates only that game;
every other game of the cycle is resolved exactly as its own transport
dictates, unaffected by the failure. -/
theorem transport_failure_unparseable_isolated (retryBound : Nat)
    (fs : List (Nat → TransportResult)) (j : Nat) (hj : j < fs.length)
    (hfail : ∀ k, k ≤ retryBound → ((fs.get ⟨j, hj⟩) k).isOk = false) :
    (runCycle retryBound fs).get? j = some .unparseableEnd ∧
    ∀ i, (runCycle retryBound fs).get? i
      = (fs.get? i).map (resolveTurn retryBound) := by
  constructor
  · have hrt : resolveTurn retryBound (fs.get ⟨j, hj⟩) = .unparseableEnd := by
      unfold resolveTurn sendWithRetry
      rw [trySend_none _ retryBound 0 (fun k hk1 hk2 => hfail k (by omega))]
    rw [runCycle, List.get?_map, List.get?_eq_get hj]
    exact congrArg some hrt
  · intro i
    rw [runCycle, List.get?_map]

/-- Closed instance of `transport_failure_unparseable_isolated`: the first
of two games times out on every attempt and ends unparseable; the second
game's resolution is untouched. -/
theorem transport_failure_witness :
    (∀ k, k ≤ 2 → ((sampleTransports.get ⟨0, by decide⟩) k).isOk = false) ∧
    ((runCycle 2 sampleTransports).get? 0 = some .unparseableEnd ∧
      ∀ i, (runCycle 2 sampleTransports).get? i
        = (sampleTransports.get? i).map (resolveTurn 2)) :=
  ⟨fun k hk => rfl,
    transport_failure_unparseable_isolated 2 sampleTransports 0 (by decide)
      (fun k hk => rfl)⟩

/-- C7: under interactive mode with concurrency limit `K`, every pool state
reachable from a state with no outstanding requests keeps at most `K`
requests simultaneously in flight. -/
theorem pool_inflight_bounded (K : Nat) (s0 s : PoolState)
    (h0 : s0.inFlight = []) (hr : PoolReachable K s0 s) :
    s.inFlight.length ≤ K := by
  induction hr with
  | refl => simp [h0]
  | tail hab hbc ih =>
    cases hbc with
    | issue r rest inF dn h => simpa using h
    | complete pend inF1 inF2 dn r =>
      simp only [List.length_append, List.length_cons] at ih ⊢
      omega
    | requeue pend inF1 inF2 dn r =>
      simp only [List.length_append, List.length_cons] at ih ⊢
      omega

/-- Closed instance of `pool_inflight_bounded`: issuing one request under
limit 1 reaches a state with one request in flight, within the bound. -/
theorem pool_inflight_bounded_witness :
    ((⟨[5], [], []⟩ : PoolState).inFlight = []) ∧
    (⟨[], [5], []⟩ : PoolState).inFlight.length ≤ 1 :=
  ⟨rfl,
    pool_inflight_bounded 1 ⟨[5], [], []⟩ ⟨[], [5], []⟩ rfl
      (PoolReachable.tail (PoolReachable.refl _)
        (PoolStep.issue 5 [] [] [] (by decide)))⟩

end LlmChess
